import Mathlib

/-!
Verification development for a RISC-V integration-test toolchain:
an assembler (`assembler.py`) translating assembly lines into 32-bit
binary strings, and a reference CPU model (`tests_runner.py`) executing
a fixed operation set over a 32-register file and a sparse word memory.

Strings from the Python source are embedded as `List Char`; Python's
unbounded integers are embedded as `Int` (register contents, which are
kept non-negative by masking, as `Nat`); Python exceptions are embedded
as `Except` with a structured error type carrying the data of the
original `ValueError` messages; Python dicts that are only ever read
through lookup are embedded as functions into `Option`.
-/

/-! ## String helpers (Python `str.strip`, `str.split`, `re.split`) -/

/-- Python `s.strip()`: drop whitespace from both ends. -/
def strip (s : List Char) : List Char :=
  ((s.dropWhile Char.isWhitespace).reverse.dropWhile Char.isWhitespace).reverse

/-- Python `s.split(sep)` for a one-character separator: split on every
occurrence, keeping empty pieces (so `"".split(",") == [""]`). -/
def splitOnChar (sep : Char) : List Char → List (List Char)
  | [] => [[]]
  | c :: rest =>
    let r := splitOnChar sep rest
    if c = sep then [] :: r
    else (c :: r.headD []) :: r.tail

/-- Worker for `reSplitWS`: `cur` is the current piece reversed, `inWS`
records whether the previous character was part of a whitespace run. -/
def reSplitWSGo : List Char → List Char → Bool → List (List Char)
  | [], cur, _ => [cur.reverse]
  | c :: rest, cur, inWS =>
    if c.isWhitespace then
      if inWS then reSplitWSGo rest [] true
      else cur.reverse :: reSplitWSGo rest [] true
    else reSplitWSGo rest (c :: cur) false

/-- Python `re.split(r'\s+', s)`: split on maximal whitespace runs,
keeping the (possibly empty) pieces before the first and after the last
run. -/
def reSplitWS (s : List Char) : List (List Char) :=
  reSplitWSGo s [] false

/-! ## Numeric rendering (`to_bin` of assembler.py and the `xN` names) -/

/-- Binary digits of `n`, most significant first, empty for `0`; the
first argument is structural fuel (`n` itself suffices). -/
def natToBinGo : Nat → Nat → List Char
  | 0, _ => []
  | fuel + 1, n =>
    if n = 0 then []
    else natToBinGo fuel (n / 2) ++ [if n % 2 = 1 then '1' else '0']

/-- Binary rendering of a natural number as Python's `format(n, "b")`
produces it (`"0"` for zero, no leading zeros otherwise). -/
def binDigits (n : Nat) : List Char :=
  if n = 0 then ['0'] else natToBinGo n n

/-- Python `f"{v:0{width}b}"`: minimum-width zero-padded binary.  A
negative value is rendered with a leading `'-'` and the zero padding
inserted after the sign, exactly as Python's `format` does. -/
def pyFormatB (v : Int) (width : Nat) : List Char :=
  if v < 0 then
    let ds := binDigits v.natAbs
    '-' :: (List.replicate (width - (ds.length + 1)) '0' ++ ds)
  else
    let ds := binDigits v.toNat
    List.replicate (width - ds.length) '0' ++ ds

/-- `to_bin(val, bits)` from assembler.py: two's-complement bias a
negative value by `2^bits` (the Python source writes `(1 << bits) + val`),
then render as a zero-padded fixed-minimum-width binary string. -/
def to_bin (val : Int) (bits : Nat) : List Char :=
  pyFormatB (if val < 0 then (2 ^ bits : Int) + val else val) bits

/-- Decimal digits of `n`, most significant first, empty for `0`. -/
def natDecGo : Nat → Nat → List Char
  | 0, _ => []
  | fuel + 1, n =>
    if n = 0 then []
    else natDecGo fuel (n / 10) ++ [Nat.digitChar (n % 10)]

/-- Decimal rendering as Python's `f"{n}"` produces it. -/
def decDigits (n : Nat) : List Char :=
  if n = 0 then ['0'] else natDecGo n n

/-- The unsigned value of a bit string: specification-side reading of a
`'0'`/`'1'` string, most significant bit first. -/
def binVal (s : List Char) : Nat :=
  s.foldl (fun acc c => 2 * acc + (if c = '1' then 1 else 0)) 0

/-! ## Register names and immediate parsing (assembler.py) -/

/-- Structured embedding of the `ValueError`s raised by assembler.py and
of the plain Python exceptions (`IndexError` on a missing operand,
unpacking `ValueError` on a doubled `'('`) that can escape `assemble`.
Each named error carries the offending token of the original message. -/
inductive AsmErr where
  | unknownInstruction (tok : List Char)
  | unknownRegister (tok : List Char)
  | invalidImmediate (tok : List Char)
  | invalidMemOperand (tok : List Char)
  | indexOutOfRange
  | unpackMismatch
deriving DecidableEq

/-- The message text of each `ValueError` raised by assembler.py. -/
def AsmErr.message : AsmErr → List Char
  | .unknownInstruction t => ("Unknown instruction: ").toList ++ t
  | .unknownRegister t => ("Unknown register: ").toList ++ t
  | .invalidImmediate t => ("Invalid immediate: ").toList ++ t
  | .invalidMemOperand t => ("Invalid memory operand: ").toList ++ t
  | .indexOutOfRange => ("list index out of range").toList
  | .unpackMismatch => ("values to unpack").toList

/-- The register-name dictionary `regs` of assembler.py: `x0` .. `x31`
generated from `range(32)`, followed by the ABI aliases. -/
def regsList : List (List Char × Nat) :=
  (List.range 32).map (fun i => ('x' :: decDigits i, i)) ++
    [(("zero").toList, 0), (("ra").toList, 1), (("sp").toList, 2),
     (("gp").toList, 3), (("tp").toList, 4), (("t0").toList, 5),
     (("t1").toList, 6), (("t2").toList, 7), (("s0").toList, 8),
     (("fp").toList, 8), (("s1").toList, 9), (("a0").toList, 10),
     (("a1").toList, 11), (("a2").toList, 12), (("a3").toList, 13),
     (("a4").toList, 14), (("a5").toList, 15), (("a6").toList, 16),
     (("a7").toList, 17), (("s2").toList, 18), (("s3").toList, 19),
     (("s4").toList, 20), (("s5").toList, 21), (("s6").toList, 22),
     (("s7").toList, 23), (("s8").toList, 24), (("s9").toList, 25),
     (("s10").toList, 26), (("s11").toList, 27), (("t3").toList, 28),
     (("t4").toList, 29), (("t5").toList, 30), (("t6").toList, 31)]

/-- The shared operand normalization `s.strip().replace(",", "")` of
`parse_reg` and `parse_imm`. -/
def normTok (s : List Char) : List Char :=
  (strip s).filter (fun c => c ≠ ',')

/-- `parse_reg` of assembler.py: strip, delete commas, look the name up
in the register dictionary; unknown names raise `Unknown register`. -/
def parse_reg (s : List Char) : Except AsmErr Nat :=
  let t := normTok s
  match regsList.lookup t with
  | some n => .ok n
  | none => .error (.unknownRegister t)

/-- Value of one digit character in the given base, as accepted by
Python's `int(s, base)` (decimal digits and both letter cases). -/
def digitVal (base : Nat) (c : Char) : Option Nat :=
  let d :=
    if '0' ≤ c ∧ c ≤ '9' then some (c.toNat - ('0').toNat)
    else if 'a' ≤ c ∧ c ≤ 'z' then some (c.toNat - ('a').toNat + 10)
    else if 'A' ≤ c ∧ c ≤ 'Z' then some (c.toNat - ('A').toNat + 10)
    else none
  match d with
  | some v => if v < base then some v else none
  | none => none

/-- Digit string with Python's underscore-grouping rule: each `'_'`
must be followed by a digit (so no doubled or trailing underscore). -/
def digitsVal (base : Nat) : List Char → Nat → Option Nat
  | [], acc => some acc
  | '_' :: c :: rest, acc =>
    match digitVal base c with
    | some d => digitsVal base rest (acc * base + d)
    | none => none
  | ['_'], _ => none
  | c :: rest, acc =>
    match digitVal base c with
    | some d => digitsVal base rest (acc * base + d)
    | none => none

/-- Digits after a `0x`/`0b`/`0o` prefix: non-empty, and Python also
permits a single underscore directly after the prefix. -/
def prefixedDigits (base : Nat) (ds : List Char) : Option Nat :=
  if ds = [] then none else digitsVal base ds 0

/-- A base-0 decimal: must start with a digit, and a literal starting
with `'0'` must denote zero (Python rejects `int("010", 0)`). -/
def decimalCore (s : List Char) : Option Nat :=
  match s with
  | [] => none
  | c :: _ =>
    match digitVal 10 c with
    | none => none
    | some _ =>
      match digitsVal 10 s 0 with
      | none => none
      | some n => if c = '0' ∧ n ≠ 0 then none else some n

/-- Magnitude part of Python `int(s, 0)`: a `0x`/`0b`/`0o` prefixed
literal or a plain decimal one. -/
def pyIntCore (s : List Char) : Option Nat :=
  match s with
  | '0' :: c :: rest =>
    if c = 'x' ∨ c = 'X' then prefixedDigits 16 rest
    else if c = 'b' ∨ c = 'B' then prefixedDigits 2 rest
    else if c = 'o' ∨ c = 'O' then prefixedDigits 8 rest
    else decimalCore ('0' :: c :: rest)
  | rest => decimalCore rest

/-- Python `int(s, 0)` on an already-stripped token: optional sign, then
a prefixed or decimal literal. -/
def pyIntBase0 (s : List Char) : Option Int :=
  match s with
  | '+' :: rest => (pyIntCore rest).map (fun n => (n : Int))
  | '-' :: rest => (pyIntCore rest).map (fun n => -(n : Int))
  | rest => (pyIntCore rest).map (fun n => (n : Int))

/-- `parse_imm` of assembler.py: strip and delete commas; a token found
in the label table resolves to `label_pc - pc`, otherwise the token is
parsed as a Python base-0 integer literal, and anything else raises
`Invalid immediate`. -/
def parse_imm (s : List Char) (labels : List Char → Option Nat) (pc : Nat) :
    Except AsmErr Int :=
  let t := normTok s
  match labels t with
  | some l => .ok ((l : Int) - (pc : Int))
  | none =>
    match pyIntBase0 t with
    | some v => .ok v
    | none => .error (.invalidImmediate t)

/-! ## Instruction table and the two-pass `assemble` (assembler.py) -/

/-- The format kinds of the `opcodes` table (`"type"` in the source). -/
inductive IFormat where
  | R | I | Iload | S | B | U | J
deriving DecidableEq

/-- One entry of the `opcodes` table: format kind, opcode bits, and the
`funct3`/`funct7` bit strings.  Entries whose Python dict has no
`funct3`/`funct7` key store `[]` here; those fields are only ever read
in format branches where the source dict defines them. -/
structure OpInfo where
  fmt : IFormat
  opcode : List Char
  funct3 : List Char
  funct7 : List Char
deriving DecidableEq

/-- The static `opcodes` table of assembler.py, keyed by mnemonic. -/
def opcodes : List (List Char × OpInfo) :=
  [(("add").toList, ⟨.R, ("0110011").toList, ("000").toList, ("0000000").toList⟩),
   (("sub").toList, ⟨.R, ("0110011").toList, ("000").toList, ("0100000").toList⟩),
   (("and").toList, ⟨.R, ("0110011").toList, ("111").toList, ("0000000").toList⟩),
   (("or").toList, ⟨.R, ("0110011").toList, ("110").toList, ("0000000").toList⟩),
   (("slt").toList, ⟨.R, ("0110011").toList, ("010").toList, ("0000000").toList⟩),
   (("addi").toList, ⟨.I, ("0010011").toList, ("000").toList, []⟩),
   (("lw").toList, ⟨.Iload, ("0000011").toList, ("010").toList, []⟩),
   (("jalr").toList, ⟨.I, ("1100111").toList, ("000").toList, []⟩),
   (("sw").toList, ⟨.S, ("0100011").toList, ("010").toList, []⟩),
   (("beq").toList, ⟨.B, ("1100011").toList, ("000").toList, []⟩),
   (("bne").toList, ⟨.B, ("1100011").toList, ("001").toList, []⟩),
   (("blt").toList, ⟨.B, ("1100011").toList, ("100").toList, []⟩),
   (("lui").toList, ⟨.U, ("0110111").toList, [], []⟩),
   (("jal").toList, ⟨.J, ("1101111").toList, [], []⟩)]

/-- Python list indexing `args[i]`, raising `IndexError` when out of
range, embedded into the error monad. -/
def argGet (args : List (List Char)) (i : Nat) : Except AsmErr (List Char) :=
  match args.get? i with
  | some a => .ok a
  | none => .error .indexOutOfRange

/-- The `imm(reg)` memory-operand parse shared by the `I_load` and `S`
branches: the operand must contain `'('` and end with `')'`, else the
source raises `Invalid memory operand`; the text before the closing
parenthesis is then split at `'('` and unpacked into exactly two parts
(a mismatch is Python's unpacking `ValueError`). -/
def parseMemOperand (a : List Char) :
    Except AsmErr (List Char × List Char) :=
  if a.contains '(' ∧ a.getLast? = some ')' then
    match splitOnChar '(' a.dropLast with
    | [valPart, regPart] => .ok (valPart, regPart)
    | _ => .error .unpackMismatch
  else .error (.invalidMemOperand a)

/-- Pass 2 of `assemble` for a single queued instruction: split the
mnemonic from the comma-separated operands, look it up, and emit the
32-bit word of its format, exactly as the source's `if`/`elif` chain
does (operand parses happen in the source's order, so the first failing
parse determines the error). -/
def encodeInstr (labels : List Char → Option Nat) (pc : Nat)
    (line : List Char) : Except AsmErr (List Char) :=
  let parts := reSplitWS line
  let instr := parts.headD []
  let args := (splitOnChar ',' (parts.drop 1).flatten).map strip
  match opcodes.lookup instr with
  | none => .error (.unknownInstruction instr)
  | some op =>
    match op.fmt with
    | .R => do
      let a0 ← argGet args 0
      let rd ← parse_reg a0
      let a1 ← argGet args 1
      let rs1 ← parse_reg a1
      let a2 ← argGet args 2
      let rs2 ← parse_reg a2
      pure (op.funct7 ++ to_bin (rs2 : Int) 5 ++ to_bin (rs1 : Int) 5 ++
        op.funct3 ++ to_bin (rd : Int) 5 ++ op.opcode)
    | .I => do
      let a0 ← argGet args 0
      let rd ← parse_reg a0
      let a1 ← argGet args 1
      let rs1 ← parse_reg a1
      let a2 ← argGet args 2
      let imm ← parse_imm a2 labels pc
      pure (to_bin imm 12 ++ to_bin (rs1 : Int) 5 ++ op.funct3 ++
        to_bin (rd : Int) 5 ++ op.opcode)
    | .Iload => do
      let a0 ← argGet args 0
      let rd ← parse_reg a0
      let a1 ← argGet args 1
      let vr ← parseMemOperand a1
      let imm ← parse_imm vr.1 labels pc
      let rs1 ← parse_reg vr.2
      pure (to_bin imm 12 ++ to_bin (rs1 : Int) 5 ++ op.funct3 ++
        to_bin (rd : Int) 5 ++ op.opcode)
    | .S => do
      let a0 ← argGet args 0
      let rs2 ← parse_reg a0
      let a1 ← argGet args 1
      let vr ← parseMemOperand a1
      let imm ← parse_imm vr.1 labels pc
      let rs1 ← parse_reg vr.2
      let immBin := to_bin imm 12
      pure (immBin.take 7 ++ to_bin (rs2 : Int) 5 ++ to_bin (rs1 : Int) 5 ++
        op.funct3 ++ immBin.drop 7 ++ op.opcode)
    | .B => do
      let a0 ← argGet args 0
      let rs1 ← parse_reg a0
      let a1 ← argGet args 1
      let rs2 ← parse_reg a1
      let a2 ← argGet args 2
      let imm ← parse_imm a2 labels pc
      let immBin := to_bin imm 13
      pure (immBin.take 1 ++ ((immBin.drop 2).take 6) ++
        to_bin (rs2 : Int) 5 ++ to_bin (rs1 : Int) 5 ++ op.funct3 ++
        ((immBin.drop 8).take 4) ++ ((immBin.drop 1).take 1) ++ op.opcode)
    | .U => do
      let a0 ← argGet args 0
      let rd ← parse_reg a0
      let a1 ← argGet args 1
      let imm ← parse_imm a1 labels pc
      pure (to_bin imm 20 ++ to_bin (rd : Int) 5 ++ op.opcode)
    | .J => do
      let a0 ← argGet args 0
      let rd ← parse_reg a0
      let a1 ← argGet args 1
      let imm ← parse_imm a1 labels pc
      let immBin := to_bin imm 21
      pure (immBin.take 1 ++ ((immBin.drop 10).take 10) ++
        ((immBin.drop 9).take 1) ++ ((immBin.drop 1).take 8) ++
        to_bin (rd : Int) 5 ++ op.opcode)

/-- Python dict assignment `labels[name] = pc` on the label table. -/
def updLabel (labels : List Char → Option Nat) (name : List Char)
    (pc : Nat) : List Char → Option Nat :=
  fun k => if k = name then some pc else labels k

/-- Pass 1 of `assemble`: strip comments and whitespace, record label
lines (`name:` alone, or `name: instr` keeping the instruction at the
same pc), queue every remaining line as `(pc, text)` with pc advancing
by 4, and skip blank lines without advancing pc. -/
def pass1 : List (List Char) → (List Char → Option Nat) → Nat →
    List (Nat × List Char) →
    ((List Char → Option Nat) × List (Nat × List Char))
  | [], labels, _, acc => (labels, acc.reverse)
  | line :: rest, labels, pc, acc =>
    let l := strip ((splitOnChar '#' line).headD [])
    if l = [] then pass1 rest labels pc acc
    else if l.getLast? = some ':' then
      pass1 rest (updLabel labels l.dropLast pc) pc acc
    else if l.contains ':' then
      let parts := splitOnChar ':' l
      let labels2 := updLabel labels (strip (parts.headD [])) pc
      let l2 := strip (parts.getD 1 [])
      if l2 = [] then pass1 rest labels2 pc acc
      else pass1 rest labels2 (pc + 4) ((pc, l2) :: acc)
    else pass1 rest labels (pc + 4) ((pc, l) :: acc)

/-- The pass-2 loop of `assemble`: encode every queued instruction in
order; the first error aborts the whole run, so no list is produced. -/
def encodeAll (labels : List Char → Option Nat) :
    List (Nat × List Char) → Except AsmErr (List (List Char))
  | [] => .ok []
  | (pc, l) :: rest =>
    match encodeInstr labels pc l with
    | .error e => .error e
    | .ok w =>
      match encodeAll labels rest with
      | .error e => .error e
      | .ok ws => .ok (w :: ws)

/-- `assemble` of assembler.py: run pass 1 to completion over all
source lines, then encode the queued instructions against the finished
label table. -/
def assemble (lines : List (List Char)) :
    Except AsmErr (List (List Char)) :=
  let p := pass1 lines (fun _ => none) 0 []
  encodeAll p.1 p.2

/-! ## The reference CPU model (`ReferenceCPU` of tests_runner.py) -/

/-- `_to_unsigned_32`: Python `val & 0xFFFFFFFF`, i.e. the non-negative
residue modulo `4294967296 = 2^32`. -/
def toUnsigned32 (val : Int) : Nat :=
  (val % 4294967296).toNat

/-- `_to_signed_32`: mask to 32 bits, then subtract `2^32` when bit 31
(`0x80000000`) is set. -/
def toSigned32 (val : Nat) : Int :=
  let v := val % 4294967296
  if 2147483648 ≤ v then (v : Int) - 4294967296 else (v : Int)

/-- `_sign_extend_12`: mask to 12 bits, then subtract `2^12` when bit
11 (`0x800`) is set.  (Defined in the source but never called by
`execute`.) -/
def signExtend12 (imm : Int) : Int :=
  let i := imm % 4096
  if 2048 ≤ i then i - 4096 else i

/-- Architectural state of `ReferenceCPU`: 32 unsigned 32-bit register
cells and a sparse word memory (a Python dict read through
`dict.get(addr, 0)`, so absent keys are `none`). -/
structure RefCPU where
  regs : Fin 32 → Nat
  mem : Int → Option Nat

/-- `ReferenceCPU.__init__`: all registers zero, empty memory. -/
def initCPU : RefCPU :=
  ⟨fun _ => 0, fun _ => none⟩

/-- `set_reg`: store `val` masked to 32 bits. -/
def set_reg (cpu : RefCPU) (idx : Fin 32) (val : Int) : RefCPU :=
  ⟨fun j => if j = idx then toUnsigned32 val else cpu.regs j, cpu.mem⟩

/-- `get_reg`: read a register cell. -/
def get_reg (cpu : RefCPU) (idx : Fin 32) : Nat :=
  cpu.regs idx

/-- `store_word`: align the address down to a multiple of 4 with
`(addr // 4) * 4` (Python floor division, which `Int`'s `/` matches for
the positive divisor 4), then store the masked value there. -/
def store_word (cpu : RefCPU) (addr : Int) (val : Int) : RefCPU :=
  ⟨cpu.regs,
   fun a => if a = (addr / 4) * 4 then some (toUnsigned32 val) else cpu.mem a⟩

/-- `load_word`: read the word at the aligned address, 0 when that cell
was never stored to. -/
def load_word (cpu : RefCPU) (addr : Int) : Nat :=
  (cpu.mem ((addr / 4) * 4)).getD 0

/-- `ReferenceCPU.execute(op, rd, rs1, rs2=None, imm=None)`: the
source's `if`/`elif` chain over the operation name.  `s_imm` is the
raw Python integer for every operation except `lui` (the source
overwrites the masked value with `imm` itself when `op not in ['lui']`);
`sw` stores and returns without a register write-back; every other path,
including an unrecognized operation name (which leaves `res = 0`), ends
in `set_reg(rd, res)`.  In the `lui` branch the source reads the raw
`imm`; `imm.getD 0` is only ever reached with `imm` present (Python
would raise a `TypeError` on `None` there, and no caller passes it). -/
def execute (cpu : RefCPU) (op : List Char) (rd rs1 : Fin 32)
    (rs2 : Option (Fin 32)) (imm : Option Int) : RefCPU :=
  let u_rs1 := get_reg cpu rs1
  let u_rs2 := match rs2 with
    | some r => get_reg cpu r
    | none => 0
  let s_rs1 := toSigned32 u_rs1
  let s_rs2 := toSigned32 u_rs2
  let s_imm : Int := match imm with
    | none => 0
    | some i => if op = ("lui").toList then ((toUnsigned32 i : Nat) : Int) else i
  if op = ("add").toList then
    set_reg cpu rd ((u_rs1 : Int) + (u_rs2 : Int))
  else if op = ("sub").toList then
    set_reg cpu rd ((u_rs1 : Int) - (u_rs2 : Int))
  else if op = ("and").toList then
    set_reg cpu rd ((Nat.land u_rs1 u_rs2 : Nat) : Int)
  else if op = ("or").toList then
    set_reg cpu rd ((Nat.lor u_rs1 u_rs2 : Nat) : Int)
  else if op = ("slt").toList then
    set_reg cpu rd (if s_rs1 < s_rs2 then 1 else 0)
  else if op = ("addi").toList then
    set_reg cpu rd ((u_rs1 : Int) + s_imm)
  else if op = ("lui").toList then
    set_reg cpu rd ((imm.getD 0 % 1048576) * 4096)
  else if op = ("sw").toList then
    store_word cpu (((u_rs1 : Int) + s_imm) % 4294967296) (u_rs2 : Int)
  else if op = ("lw").toList then
    set_reg cpu rd ((load_word cpu (((u_rs1 : Int) + s_imm) % 4294967296) : Nat) : Int)
  else
    set_reg cpu rd 0

/-! ## General lemmas about the binary rendering and the encode loop -/

/-- Folding the bit-value step over `natToBinGo fuel n` appends the
binary digits of `n` below the accumulated prefix value. -/
theorem natToBinGo_foldl (fuel : Nat) :
    ∀ (n acc : Nat), n ≤ fuel →
      List.foldl (fun a c => 2 * a + (if c = '1' then 1 else 0)) acc
        (natToBinGo fuel n) =
      acc * 2 ^ (natToBinGo fuel n).length + n := by
  induction fuel with
  | zero =>
    intro n acc h
    have hn : n = 0 := by omega
    subst hn
    simp [natToBinGo]
  | succ f ih =>
    intro n acc h
    by_cases hn : n = 0
    · subst hn; simp [natToBinGo]
    · rw [natToBinGo, if_neg hn, List.foldl_append,
        ih (n / 2) acc (by omega)]
      simp only [List.foldl_cons, List.foldl_nil, List.length_append,
        List.length_cons, List.length_nil, Nat.zero_add]
      have hd : (if (if n % 2 = 1 then '1' else '0') = '1' then 1 else 0)
          = n % 2 := by
        rcases Nat.mod_two_eq_zero_or_one n with h2 | h2 <;> simp [h2]
      rw [hd]
      calc 2 * (acc * 2 ^ (natToBinGo f (n / 2)).length + n / 2) + n % 2
          = acc * 2 ^ ((natToBinGo f (n / 2)).length + 1) +
              (2 * (n / 2) + n % 2) := by ring
        _ = acc * 2 ^ ((natToBinGo f (n / 2)).length + 1) + n := by
              rw [Nat.div_add_mod]

/-- A number below `2 ^ k` has at most `k` binary digits. -/
theorem natToBinGo_length_le (fuel : Nat) :
    ∀ (n k : Nat), n ≤ fuel → n < 2 ^ k →
      (natToBinGo fuel n).length ≤ k := by
  induction fuel with
  | zero =>
    intro n k h _
    have hn : n = 0 := by omega
    subst hn
    simp [natToBinGo]
  | succ f ih =>
    intro n k h hk
    by_cases hn : n = 0
    · subst hn; simp [natToBinGo]
    · rw [natToBinGo, if_neg hn]
      cases k with
      | zero => simp at hk; omega
      | succ k' =>
        simp only [List.length_append, List.length_cons, List.length_nil,
          Nat.zero_add]
        have h2 : n / 2 < 2 ^ k' := by
          have := pow_succ 2 k'
          omega
        have := ih (n / 2) k' (by omega) h2
        omega

/-- Every character of the raw binary rendering is `'0'` or `'1'`. -/
theorem natToBinGo_chars (fuel : Nat) :
    ∀ (n : Nat) (c : Char), c ∈ natToBinGo fuel n →
      c = '0' ∨ c = '1' := by
  induction fuel with
  | zero => intro n c hc; simp [natToBinGo] at hc
  | succ f ih =>
    intro n c hc
    by_cases hn : n = 0
    · subst hn; simp [natToBinGo] at hc
    · rw [natToBinGo, if_neg hn] at hc
      rcases List.mem_append.mp hc with h | h
      · exact ih _ _ h
      · simp only [List.mem_singleton] at h
        subst h
        by_cases h2 : n % 2 = 1 <;> simp [h2]

/-- Value of `binDigits` under the bit-value fold. -/
theorem binDigits_foldl (n acc : Nat) :
    List.foldl (fun a c => 2 * a + (if c = '1' then 1 else 0)) acc
      (binDigits n) = acc * 2 ^ (binDigits n).length + n := by
  by_cases hn : n = 0
  · subst hn; simp [binDigits]; ring
  · rw [binDigits, if_neg hn]
    exact natToBinGo_foldl n n acc le_rfl

/-- Length bound for `binDigits`. -/
theorem binDigits_length_le (n k : Nat) (hk : 1 ≤ k) (hn : n < 2 ^ k) :
    (binDigits n).length ≤ k := by
  by_cases h0 : n = 0
  · subst h0; simpa [binDigits] using hk
  · rw [binDigits, if_neg h0]
    exact natToBinGo_length_le n n k le_rfl hn

/-- Character set of `binDigits`. -/
theorem binDigits_chars (n : Nat) (c : Char) (hc : c ∈ binDigits n) :
    c = '0' ∨ c = '1' := by
  by_cases h0 : n = 0
  · subst h0; simp [binDigits] at hc; simp [hc]
  · rw [binDigits, if_neg h0] at hc
    exact natToBinGo_chars n n c hc

/-- Leading zero padding contributes nothing to the bit value. -/
theorem foldl_replicate_zero (m : Nat) :
    List.foldl (fun a c => 2 * a + (if c = '1' then 1 else 0)) 0
      (List.replicate m '0') = 0 := by
  induction m with
  | zero => rfl
  | succ k ih => simpa [List.replicate_succ] using ih

/-- For a non-negative value below `2 ^ width` and a positive width,
Python's zero-padded binary format yields exactly `width` bit characters
whose value is the formatted number. -/
theorem pyFormatB_spec (n : Nat) (width : Nat) (hw : 1 ≤ width)
    (hn : n < 2 ^ width) :
    (pyFormatB (n : Int) width).length = width ∧
    (pyFormatB (n : Int) width).all (fun c => c = '0' || c = '1') = true ∧
    binVal (pyFormatB (n : Int) width) = n := by
  have hneg : ¬((n : Int) < 0) := by omega
  have htn : (n : Int).toNat = n := Int.toNat_natCast n
  have hlen : (binDigits n).length ≤ width := binDigits_length_le n width hw hn
  rw [pyFormatB, if_neg hneg, htn]
  refine ⟨?_, ?_, ?_⟩
  · simp only [List.length_append, List.length_replicate]
    omega
  · rw [List.all_eq_true]
    intro c hc
    rcases List.mem_append.mp hc with h | h
    · rw [List.eq_of_mem_replicate h]
      simp
    · rcases binDigits_chars n c h with h1 | h1 <;> simp [h1]
  · rw [binVal, List.foldl_append, foldl_replicate_zero, binDigits_foldl]
    simp

/-- A successful pass-2 loop encodes every queued instruction: the
output has exactly one word per instruction. -/
theorem encodeAll_length (labels : List Char → Option Nat) :
    ∀ (instrs : List (Nat × List Char)) (out : List (List Char)),
      encodeAll labels instrs = .ok out → out.length = instrs.length := by
  intro instrs
  induction instrs with
  | nil =>
    intro out h
    simp only [encodeAll] at h
    cases h
    rfl
  | cons pl rest ih =>
    intro out h
    obtain ⟨pc, l⟩ := pl
    simp only [encodeAll] at h
    cases hw : encodeInstr labels pc l with
    | error e => rw [hw] at h; cases h
    | ok w =>
      rw [hw] at h
      cases hr : encodeAll labels rest with
      | error e => rw [hr] at h; cases h
      | ok ws =>
        rw [hr] at h
        cases h
        simp [ih ws hr]

/-! ## The claims -/

/-- Claim C1: encoding `addi x1, x0, 10` produces exactly the word
`00000000101000000000000010010011`, which decomposes into the fields
imm `000000001010`, rs1 `00000`, funct3 `000`, rd `00001`, opcode
`0010011`; and executing the reference operation `addi` with rd 1,
rs1 0, imm 10 on the zero-initialized register file leaves register 1
holding 10 and every other register 0. -/
theorem claim_c1 :
    assemble [("addi x1, x0, 10").toList] =
      .ok [("00000000101000000000000010010011").toList] ∧
    ("00000000101000000000000010010011").toList =
      ("000000001010").toList ++ ("00000").toList ++ ("000").toList ++
        ("00001").toList ++ ("0010011").toList ∧
    List.ofFn (execute initCPU (("addi").toList) 1 0 none (some 10)).regs =
      0 :: 10 :: List.replicate 30 0 :=
  ⟨rfl, rfl, by decide⟩

/-- Claim C2: on 32-bit register contents `a` and `b`, the reference
`add` stores `(a + b) mod 2^32`, `sub` stores `(a - b) mod 2^32`, and
`slt` stores 1 exactly when the signed 32-bit reinterpretation of `a`
is below that of `b`, the result written unsigned. -/
theorem claim_c2 (cpu : RefCPU) (rd rs1 rs2 : Fin 32) (a b : Nat)
    (ha : cpu.regs rs1 = a) (hb : cpu.regs rs2 = b)
    (ha32 : a < 2 ^ 32) (hb32 : b < 2 ^ 32) :
    (execute cpu (("add").toList) rd rs1 (some rs2) none).regs rd =
      (a + b) % 2 ^ 32 ∧
    (execute cpu (("sub").toList) rd rs1 (some rs2) none).regs rd =
      (((a : Int) - (b : Int)) % 2 ^ 32).toNat ∧
    (execute cpu (("slt").toList) rd rs1 (some rs2) none).regs rd =
      (if (if a < 2 ^ 31 then (a : Int) else (a : Int) - 2 ^ 32) <
          (if b < 2 ^ 31 then (b : Int) else (b : Int) - 2 ^ 32)
        then 1 else 0) := by
  subst ha hb
  have hadd : execute cpu (("add").toList) rd rs1 (some rs2) none =
      set_reg cpu rd ((cpu.regs rs1 : Int) + (cpu.regs rs2 : Int)) := rfl
  have hsub : execute cpu (("sub").toList) rd rs1 (some rs2) none =
      set_reg cpu rd ((cpu.regs rs1 : Int) - (cpu.regs rs2 : Int)) := rfl
  have hslt : execute cpu (("slt").toList) rd rs1 (some rs2) none =
      set_reg cpu rd
        (if toSigned32 (cpu.regs rs1) < toSigned32 (cpu.regs rs2)
          then 1 else 0) := rfl
  have hsigned : ∀ n : Nat, n < 2 ^ 32 → toSigned32 n =
      (if n < 2 ^ 31 then (n : Int) else (n : Int) - 2 ^ 32) := by
    intro n hn
    simp only [toSigned32]
    rw [Nat.mod_eq_of_lt (by omega)]
    split_ifs <;> omega
  refine ⟨?_, ?_, ?_⟩
  · rw [hadd]
    simp [set_reg, toUnsigned32]
    omega
  · rw [hsub]
    simp [set_reg, toUnsigned32]
  · rw [hslt]
    rw [hsigned _ ha32, hsigned _ hb32]
    simp [set_reg, toUnsigned32]
    split_ifs <;> decide

/-- Witness for C2 at the claim's own instance: rs1 holding
`0x80000000 = 2147483648` and rs2 holding 0 makes `slt` store 1. -/
theorem claim_c2_witness :
    ((RefCPU.mk (fun j => if j = 1 then 2147483648 else 0)
        (fun _ => none)).regs 1 = 2147483648) ∧
    ((RefCPU.mk (fun j => if j = 1 then 2147483648 else 0)
        (fun _ => none)).regs 2 = 0) ∧
    (2147483648 : Nat) < 2 ^ 32 ∧ (0 : Nat) < 2 ^ 32 ∧
    ((execute (RefCPU.mk (fun j => if j = 1 then 2147483648 else 0)
          (fun _ => none)) (("add").toList) 5 1 (some 2) none).regs 5 =
        (2147483648 + 0) % 2 ^ 32 ∧
      (execute (RefCPU.mk (fun j => if j = 1 then 2147483648 else 0)
          (fun _ => none)) (("sub").toList) 5 1 (some 2) none).regs 5 =
        (((2147483648 : Int) - (0 : Int)) % 2 ^ 32).toNat ∧
      (execute (RefCPU.mk (fun j => if j = 1 then 2147483648 else 0)
          (fun _ => none)) (("slt").toList) 5 1 (some 2) none).regs 5 =
        (if (if 2147483648 < 2 ^ 31 then (2147483648 : Int)
              else (2147483648 : Int) - 2 ^ 32) <
            (if 0 < 2 ^ 31 then (0 : Int) else (0 : Int) - 2 ^ 32)
          then 1 else 0)) :=
  ⟨rfl, rfl, by norm_num, by norm_num,
   claim_c2 _ 5 1 2 2147483648 0 rfl rfl (by norm_num) (by norm_num)⟩

/-- Claim C3: stores and loads access the word cell at `(a / 4) * 4`,
so any two addresses with the same word index alias (in particular a
store to 6 is observed by loads from 4 and from 7, instantiated in the
witness); `sw` changes no register; and a load from an address whose
aligned word was never stored reads 0. -/
theorem claim_c3 :
    (∀ (cpu : RefCPU) (a b : Int) (v : Nat), a / 4 = b / 4 →
      v < 2 ^ 32 → load_word (store_word cpu a (v : Int)) b = v) ∧
    (∀ (cpu : RefCPU) (rd rs1 : Fin 32) (rs2 : Option (Fin 32))
      (imm : Option Int),
      (execute cpu (("sw").toList) rd rs1 rs2 imm).regs = cpu.regs) ∧
    (∀ (cpu : RefCPU) (a : Int), cpu.mem ((a / 4) * 4) = none →
      load_word cpu a = 0) := by
  refine ⟨fun cpu a b v hab hv => ?_, fun _ _ _ _ _ => rfl,
    fun cpu a h => ?_⟩
  · simp [load_word, store_word, hab, toUnsigned32]
    omega
  · simp [load_word, h]

/-- Witness for C3: the claim's own 6/4 and 6/7 aliasing instances, an
`sw` execution that leaves all registers unchanged, and a load from
untouched memory. -/
theorem claim_c3_witness :
    ((6 : Int) / 4 = (4 : Int) / 4) ∧ (42 : Nat) < 2 ^ 32 ∧
    load_word (store_word initCPU 6 (42 : Nat)) 4 = 42 ∧
    ((6 : Int) / 4 = (7 : Int) / 4) ∧
    load_word (store_word initCPU 6 (42 : Nat)) 7 = 42 ∧
    (execute initCPU (("sw").toList) 0 1 (some 2) (some 0)).regs =
      initCPU.regs ∧
    initCPU.mem (((100 : Int) / 4) * 4) = none ∧
    load_word initCPU 100 = 0 :=
  ⟨by decide, by norm_num, claim_c3.1 initCPU 6 4 42 (by decide) (by norm_num),
   by decide, claim_c3.1 initCPU 6 7 42 (by decide) (by norm_num),
   claim_c3.2.1 initCPU 0 1 (some 2) (some 0),
   rfl, claim_c3.2.2 initCPU 100 rfl⟩

/-- Counterexample to claim C4 as stated: `to_bin` does not wrap values
that exceed the field width.  `to_bin 4096 12` has 13 characters, not
12; width 0 still produces the one-character string `0`; and a value
below `-(2 ^ bits)` is rendered with a `'-'` sign character. -/
theorem claim_c4_counterexample :
    (to_bin 4096 12).length ≠ 12 ∧
    (to_bin 0 0).length ≠ 0 ∧
    ¬((to_bin (-5000) 12).all (fun c => c = '0' || c = '1') = true) := by
  refine ⟨?_, ?_, ?_⟩ <;> decide

/-- Claim C4 as amended: for a positive width and a value `v` with
`-(2 ^ bits) ≤ v < 2 ^ bits` (two's-complement biasing keeps the biased
value in range), `to_bin v bits` is a string of exactly `bits`
characters over 0/1 whose unsigned binary value is `v mod 2 ^ bits`. -/
theorem claim_c4 (v : Int) (bits : Nat) (hb : 1 ≤ bits)
    (h1 : -(2 ^ bits : Int) ≤ v) (h2 : v < (2 ^ bits : Int)) :
    (to_bin v bits).length = bits ∧
    (to_bin v bits).all (fun c => c = '0' || c = '1') = true ∧
    binVal (to_bin v bits) = (v % (2 ^ bits : Int)).toNat := by
  have hpow : ((2 ^ bits : Nat) : Int) = (2 ^ bits : Int) := by
    push_cast
    ring
  have hm : (0 : Int) < (2 ^ bits : Int) := by positivity
  have hb1 : 0 ≤ (if v < 0 then (2 ^ bits : Int) + v else v) := by
    split_ifs <;> omega
  have hb2 : (if v < 0 then (2 ^ bits : Int) + v else v) <
      (2 ^ bits : Int) := by
    split_ifs <;> omega
  have hmod : (if v < 0 then (2 ^ bits : Int) + v else v) =
      v % (2 ^ bits : Int) := by
    split_ifs with hv
    · have e1 : (v + (2 ^ bits : Int) * 1) % (2 ^ bits : Int) =
          v % (2 ^ bits : Int) := Int.add_mul_emod_self_left v (2 ^ bits) 1
      rw [← e1, Int.emod_eq_of_lt (by omega) (by omega)]
      ring
    · rw [Int.emod_eq_of_lt (by omega) h2]
  have hnat : (if v < 0 then (2 ^ bits : Int) + v else v).toNat <
      2 ^ bits := by
    omega
  have hcast : ((if v < 0 then (2 ^ bits : Int) + v else v).toNat : Int) =
      (if v < 0 then (2 ^ bits : Int) + v else v) :=
    Int.toNat_of_nonneg hb1
  obtain ⟨hl, ha, hval⟩ :=
    pyFormatB_spec (if v < 0 then (2 ^ bits : Int) + v else v).toNat bits
      hb hnat
  rw [hcast] at hl ha hval
  rw [to_bin]
  exact ⟨hl, ha, by rw [hval, ← hmod]⟩

/-- Witness for the amended C4 at `v = -8`, `bits = 13` (the branch
immediate width of the B format). -/
theorem claim_c4_witness :
    (1 ≤ 13) ∧ (-(2 ^ 13 : Int) ≤ -8) ∧ ((-8 : Int) < (2 ^ 13 : Int)) ∧
    ((to_bin (-8) 13).length = 13 ∧
      (to_bin (-8) 13).all (fun c => c = '0' || c = '1') = true ∧
      binVal (to_bin (-8) 13) = ((-8 : Int) % (2 ^ 13 : Int)).toNat) :=
  ⟨by norm_num, by norm_num, by norm_num,
   claim_c4 (-8) 13 (by norm_num) (by norm_num) (by norm_num)⟩

/-- Counterexample to claim C5 as stated: `execute` uses the raw
immediate for `addi` (the source assigns `s_imm = imm` for every
operation but `lui`, and `_sign_extend_12` is never called), so with
imm 4096 on the zero state register 1 receives 4096, not the
sign-extended value 0 the claim requires. -/
theorem claim_c5_counterexample :
    (execute initCPU (("addi").toList) 1 0 none (some 4096)).regs 1 ≠
      toUnsigned32 ((initCPU.regs 0 : Int) + signExtend12 4096) ∧
    (execute initCPU (("addi").toList) 1 0 none (some 4096)).regs 1 = 4096 ∧
    toUnsigned32 ((initCPU.regs 0 : Int) + signExtend12 4096) = 0 := by
  refine ⟨?_, rfl, rfl⟩
  decide

/-- Claim C5 as amended: for immediates already in the 12-bit signed
range -2048 .. 2047 (the only ones the generators pass), the value
stored by `addi` equals `(rs1 + sign_extend_12 imm) mod 2^32`; on that
range sign extension is the identity, which is why the code's raw use
of the immediate agrees with the claim there. -/
theorem claim_c5 (cpu : RefCPU) (rd rs1 : Fin 32) (rs2 : Option (Fin 32))
    (imm : Int) (h1 : -2048 ≤ imm) (h2 : imm ≤ 2047) :
    (execute cpu (("addi").toList) rd rs1 rs2 (some imm)).regs rd =
      toUnsigned32 ((cpu.regs rs1 : Int) + signExtend12 imm) := by
  have hse : signExtend12 imm = imm := by
    simp only [signExtend12]
    omega
  have hexec : execute cpu (("addi").toList) rd rs1 rs2 (some imm) =
      set_reg cpu rd ((cpu.regs rs1 : Int) + imm) := rfl
  rw [hexec, hse]
  simp [set_reg]

/-- Witness for the amended C5 at imm `-8` on the zero state. -/
theorem claim_c5_witness :
    (-2048 ≤ (-8 : Int)) ∧ ((-8 : Int) ≤ 2047) ∧
    (execute initCPU (("addi").toList) 1 0 none (some (-8))).regs 1 =
      toUnsigned32 ((initCPU.regs 0 : Int) + signExtend12 (-8)) :=
  ⟨by norm_num, by norm_num,
   claim_c5 initCPU 1 0 none (-8) (by norm_num) (by norm_num)⟩

/-- Claim C6: with `loop:` declared at pc 0 and `bne x1, x0, loop` two
instructions later at pc 8, the branch immediate resolves to -8, is
packed as the 13-bit two's-complement string `1111111111000`, and the
emitted word is `1111111 00000 00001 001 1100 1 1100011` in the B-type
field order imm12, imm10:5, rs2, rs1, funct3, imm4:1, imm11, opcode. -/
theorem claim_c6 :
    assemble [("loop:").toList, ("addi x3, x0, 1").toList,
        ("addi x4, x0, 2").toList, ("bne x1, x0, loop").toList] =
      .ok [("00000000000100000000000110010011").toList,
        ("00000000001000000000001000010011").toList,
        ("11111110000000001001110011100011").toList] ∧
    ("11111110000000001001110011100011").toList =
      ("1").toList ++ ("111111").toList ++ ("00000").toList ++
        ("00001").toList ++ ("001").toList ++ ("1100").toList ++
        ("1").toList ++ ("1100011").toList ∧
    parse_imm (("loop").toList)
      (pass1 [("loop:").toList, ("addi x3, x0, 1").toList,
        ("addi x4, x0, 2").toList, ("bne x1, x0, loop").toList]
        (fun _ => none) 0 []).1 8 = .ok (-8) ∧
    to_bin (-8) 13 = ("1111111111000").toList :=
  ⟨rfl, rfl, rfl, rfl⟩

/-- Claim C7: pass 1 builds the complete label table before any
instruction is encoded — `assemble` factors through the finished
`pass1` result; an immediate operand found in the label table always
resolves to `label_pc - referencing_pc`, independent of where the label
was declared; and a concrete forward reference (`target:` declared two
lines below the `beq` that names it) encodes successfully with the
offset `8 - 0 = 8`. -/
theorem claim_c7 :
    (∀ lines, assemble lines =
      encodeAll (pass1 lines (fun _ => none) 0 []).1
        (pass1 lines (fun _ => none) 0 []).2) ∧
    (∀ (s : List Char) (labels : List Char → Option Nat) (pc l : Nat),
      labels (normTok s) = some l →
      parse_imm s labels pc = .ok ((l : Int) - (pc : Int))) ∧
    assemble [("beq x0, x0, target").toList, ("addi x1, x0, 1").toList,
        ("target:").toList, ("addi x2, x0, 2").toList] =
      .ok [("00000000000000000000010001100011").toList,
        ("00000000000100000000000010010011").toList,
        ("00000000001000000000000100010011").toList] ∧
    to_bin 8 13 = ("0000000001000").toList :=
  ⟨fun _ => rfl, fun s labels pc l h => by simp [parse_imm, h], rfl, rfl⟩

/-- Witness for C7's label-resolution component at a one-entry table. -/
theorem claim_c7_witness :
    ((fun k => if k = ("target").toList then some 8 else none :
        List Char → Option Nat) (normTok (("target").toList)) = some 8) ∧
    parse_imm (("target").toList)
      (fun k => if k = ("target").toList then some 8 else none) 0 =
      .ok ((8 : Int) - (0 : Int)) :=
  ⟨by decide, claim_c7.2.1 (("target").toList) _ 0 8 (by decide)⟩

/-- Claim C8: each malformed-input class is fatal for the whole encode
call — an unknown mnemonic, an unknown register, an unresolved label,
a non-numeric non-label immediate, and a malformed memory operand each
turn `assemble` into an error naming the offending token (the
`ValueError` message texts are reproduced below); and a successful run
returns one word for every queued instruction, so there is never an
incomplete output list. -/
theorem claim_c8 :
    assemble [("foo x1, x2, x3").toList] =
      .error (.unknownInstruction (("foo").toList)) ∧
    assemble [("add x1, x2, x99").toList] =
      .error (.unknownRegister (("x99").toList)) ∧
    assemble [("bne x1, x0, nowhere").toList] =
      .error (.invalidImmediate (("nowhere").toList)) ∧
    assemble [("addi x1, x0, oops").toList] =
      .error (.invalidImmediate (("oops").toList)) ∧
    assemble [("lw x1, 8x2").toList] =
      .error (.invalidMemOperand (("8x2").toList)) ∧
    AsmErr.message (.unknownInstruction (("foo").toList)) =
      ("Unknown instruction: foo").toList ∧
    AsmErr.message (.unknownRegister (("x99").toList)) =
      ("Unknown register: x99").toList ∧
    AsmErr.message (.invalidImmediate (("nowhere").toList)) =
      ("Invalid immediate: nowhere").toList ∧
    AsmErr.message (.invalidMemOperand (("8x2").toList)) =
      ("Invalid memory operand: 8x2").toList ∧
    (∀ (lines : List (List Char)) (out : List (List Char)),
      assemble lines = .ok out →
      out.length = (pass1 lines (fun _ => none) 0 []).2.length) :=
  ⟨rfl, rfl, rfl, rfl, rfl, rfl, rfl, rfl, rfl,
   fun _ _ h => encodeAll_length _ _ _ h⟩

/-- Witness for C8's full-image component on a one-line program. -/
theorem claim_c8_witness :
    assemble [("addi x1, x0, 10").toList] =
      .ok [("00000000101000000000000010010011").toList] ∧
    ([("00000000101000000000000010010011").toList] :
        List (List Char)).length =
      (pass1 [("addi x1, x0, 10").toList] (fun _ => none) 0 []).2.length :=
  ⟨rfl, claim_c8.2.2.2.2.2.2.2.2.2 [("addi x1, x0, 10").toList]
    [("00000000101000000000000010010011").toList] rfl⟩

/-- Claim C9: an operation name outside the supported set falls through
every branch of `execute` with `res` still 0, so the state mutates
silently: register rd is overwritten with 0 and memory is untouched. -/
theorem claim_c9 (cpu : RefCPU) (op : List Char) (rd rs1 : Fin 32)
    (rs2 : Option (Fin 32)) (imm : Option Int)
    (h : op ∉ [("add").toList, ("sub").toList, ("and").toList,
      ("or").toList, ("slt").toList, ("addi").toList, ("lui").toList,
      ("sw").toList, ("lw").toList]) :
    execute cpu op rd rs1 rs2 imm =
      RefCPU.mk (fun j => if j = rd then 0 else cpu.regs j) cpu.mem := by
  simp only [List.mem_cons, List.not_mem_nil, or_false, not_or] at h
  obtain ⟨h1, h2, h3, h4, h5, h6, h7, h8, h9⟩ := h
  replace h1 : op ≠ ['a', 'd', 'd'] := h1
  replace h2 : op ≠ ['s', 'u', 'b'] := h2
  replace h3 : op ≠ ['a', 'n', 'd'] := h3
  replace h4 : op ≠ ['o', 'r'] := h4
  replace h5 : op ≠ ['s', 'l', 't'] := h5
  replace h6 : op ≠ ['a', 'd', 'd', 'i'] := h6
  replace h7 : op ≠ ['l', 'u', 'i'] := h7
  replace h8 : op ≠ ['s', 'w'] := h8
  replace h9 : op ≠ ['l', 'w'] := h9
  have h0 : toUnsigned32 0 = 0 := by decide
  simp [execute, h1, h2, h3, h4, h5, h6, h7, h8, h9, set_reg, h0]

/-- Witness for C9 at the unsupported operation name `xor`. -/
theorem claim_c9_witness :
    (("xor").toList ∉ [("add").toList, ("sub").toList, ("and").toList,
      ("or").toList, ("slt").toList, ("addi").toList, ("lui").toList,
      ("sw").toList, ("lw").toList]) ∧
    execute initCPU (("xor").toList) 3 0 none none =
      RefCPU.mk (fun j => if j = 3 then 0 else initCPU.regs j)
        initCPU.mem :=
  ⟨by decide, claim_c9 initCPU (("xor").toList) 3 0 none none (by decide)⟩

/-- Claim C10: register 0 is an ordinary writable cell: every
register-destination operation invoked with rd 0 stores its masked
result into register 0 and `get_reg 0` returns it, and after
`addi x0, x0, 7` on the zero state register 0 reads back 7, not 0. -/
theorem claim_c10 (cpu : RefCPU) (rs1 rs2 : Fin 32) (i : Int) :
    get_reg (execute cpu (("add").toList) 0 rs1 (some rs2) none) 0 =
      toUnsigned32 ((cpu.regs rs1 : Int) + (cpu.regs rs2 : Int)) ∧
    get_reg (execute cpu (("sub").toList) 0 rs1 (some rs2) none) 0 =
      toUnsigned32 ((cpu.regs rs1 : Int) - (cpu.regs rs2 : Int)) ∧
    get_reg (execute cpu (("and").toList) 0 rs1 (some rs2) none) 0 =
      toUnsigned32 ((Nat.land (cpu.regs rs1) (cpu.regs rs2) : Nat)) ∧
    get_reg (execute cpu (("or").toList) 0 rs1 (some rs2) none) 0 =
      toUnsigned32 ((Nat.lor (cpu.regs rs1) (cpu.regs rs2) : Nat)) ∧
    get_reg (execute cpu (("slt").toList) 0 rs1 (some rs2) none) 0 =
      toUnsigned32 (if toSigned32 (cpu.regs rs1) < toSigned32 (cpu.regs rs2)
        then 1 else 0) ∧
    get_reg (execute cpu (("addi").toList) 0 rs1 none (some i)) 0 =
      toUnsigned32 ((cpu.regs rs1 : Int) + i) ∧
    get_reg (execute cpu (("lui").toList) 0 rs1 none (some i)) 0 =
      toUnsigned32 ((i % 1048576) * 4096) ∧
    get_reg (execute cpu (("lw").toList) 0 rs1 none (some i)) 0 =
      toUnsigned32
        ((load_word cpu (((cpu.regs rs1 : Int) + i) % 4294967296) : Nat)) ∧
    get_reg (execute initCPU (("addi").toList) 0 0 none (some 7)) 0 = 7 :=
  ⟨rfl, rfl, rfl, rfl, rfl, rfl, rfl, rfl, by decide⟩
